import Mathlib

/-!
# PID controller (`src/PID.js`)

A shallow embedding of the `PID` class.  JavaScript numbers are idealised to an
arbitrary linearly ordered field `α` (instantiate at `ℚ` to run the
definitions), so arithmetic is exact.  The two history arrays `err` and `time`
are lists, `pop` is `List.dropLast` and `unshift` is cons.  An array read
`a[i]` is `a[i]?`; a read past the end makes the operation return `none`.
`Date.now()` is an explicit argument: one clock reading per call in the source.
-/

namespace PIDController

set_option linter.unusedSectionVars false

variable {α : Type} [LinearOrderedField α]

/-- Index of the current sample, `const CUR = 0`. -/
def CUR : Nat := 0

/-- Index of the previous sample, `const PREV = 1`. -/
def PREV : Nat := 1

/-- A two-axis value `{x, y}`. -/
structure Vec (α : Type) where
  x : α
  y : α
deriving DecidableEq

/-- The fields of a `PID` object: four gains, the two histories and the running sum. -/
structure PID (α : Type) where
  Kp : α
  Ki : α
  Kd : α
  Kdd : α
  err : List (Vec α)
  time : List α
  sumErr : Vec α
deriving DecidableEq

/-- The function `Math.sign` on exact numbers: `1`, `-1` or `0`. -/
def sign (v : α) : α :=
  if 0 < v then 1 else if v < 0 then -1 else 0

/-- The method `reset()`; `n0 n1 n2` are the readings of its three `Date.now()` calls. -/
def PID.reset (s : PID α) (n0 n1 n2 : α) : PID α :=
  { s with
    err := [⟨0, 0⟩, ⟨0, 0⟩, ⟨0, 0⟩]
    time := [n0, n1, n2]
    sumErr := ⟨0, 0⟩ }

/-- The method `setParameters(Kp, Ki, Kd, Kdd)`; an omitted argument is `none`
and takes the default written in the signature. -/
def PID.setParameters (s : PID α) (n0 n1 n2 : α) (Kp Ki Kd Kdd : Option α) : PID α :=
  let s1 := s.reset n0 n1 n2
  { s1 with
    Kp := Kp.getD 0.300086
    Ki := Ki.getD 0.00002
    Kd := Kd.getD 20.079
    Kdd := Kdd.getD 0 }

/-- The object before the constructor body runs: no field has been assigned yet. -/
def blank : PID α :=
  ⟨0, 0, 0, 0, [], [], ⟨0, 0⟩⟩

/-- The constructor: the defaults of its own signature, then `setParameters`. -/
def PID.new (n0 n1 n2 : α) (Kp Ki Kd Kdd : Option α) : PID α :=
  (blank : PID α).setParameters n0 n1 n2
    (some (Kp.getD 0.300086)) (some (Ki.getD 0.00002)) (some (Kd.getD 20.079)) (some (Kdd.getD 0))

/-- The method `unshiftNow()`; `now` is the reading of `Date.now()`. -/
def PID.unshiftNow (s : PID α) (now : α) : PID α :=
  { s with time := now :: s.time.dropLast }

/-- The method `dt(t)`: `Math.max(35, this.time[t] - this.time[t + 1])`. -/
def PID.dt (s : PID α) (t : Nat) : Option α := do
  let a ← s.time[t]?
  let b ← s.time[t + 1]?
  pure (max 35 (a - b))

/-- The method `de(t)`: the componentwise difference of `err[t]` and `err[t + 1]`. -/
def PID.de (s : PID α) (t : Nat) : Option (Vec α) := do
  let a ← s.err[t]?
  let b ← s.err[t + 1]?
  pure ⟨a.x - b.x, a.y - b.y⟩

/-- The method `unshiftErr(e)`. -/
def PID.unshiftErr (s : PID α) (now : α) (e : Vec α) : Option (PID α) := do
  let s1 := s.unshiftNow now
  let s2 := { s1 with err := e :: s1.err.dropLast }
  let dx ← s2.dt CUR
  let cx ← s2.err[CUR]?
  let s3 := { s2 with sumErr := ⟨s2.sumErr.x + dx * cx.x, s2.sumErr.y⟩ }
  let dy ← s3.dt CUR
  let cy ← s3.err[CUR]?
  pure { s3 with sumErr := ⟨s3.sumErr.x, s3.sumErr.y + dy * cy.y⟩ }

/-- The method `process(input)`: the returned velocity together with the object afterwards. -/
def PID.process (s : PID α) (now : α) (input : Vec α) : Option (Vec α × PID α) :=
  if s.Kp = -1 then
    some (⟨20 * sign input.x, 20 * sign input.y⟩, s)
  else do
    let s1 ← s.unshiftErr now input
    let c ← s1.err[CUR]?
    let deC ← s1.de CUR
    let dtC ← s1.dt CUR
    let deP ← s1.de PREV
    let dtP ← s1.dt PREV
    let px := s1.Kp * c.x
    let ix := s1.Ki * s1.sumErr.x
    let dx := s1.Kd * deC.x / dtC
    let ddx := s1.Kd * deP.x / dtP
    let velX := px + ix + dx + ddx
    let py := s1.Kp * c.y
    let iy := s1.Ki * s1.sumErr.y
    let dy := s1.Kd * deC.y / dtC
    let ddy := s1.Kd * deP.y / dtP
    let velY := py + iy + dy + ddy
    pure (⟨velX, velY⟩, s1)

/-- A control session: `process` called once per `(clock reading, error)` pair, in order;
the outputs are collected and the final object returned. -/
def PID.run (s : PID α) : List (α × Vec α) → Option (List (Vec α) × PID α)
  | [] => some ([], s)
  | (now, e) :: rest => do
    let (v, s1) ← s.process now e
    let (vs, s2) ← s1.run rest
    pure (v :: vs, s2)

/-- Both histories hold exactly three samples. -/
def PID.WF (s : PID α) : Prop :=
  s.err.length = 3 ∧ s.time.length = 3

instance (s : PID α) : Decidable s.WF := by
  unfold PID.WF; exact inferInstance

/-- Exchange of the two axes of a vector. -/
def Vec.swap (v : Vec α) : Vec α :=
  ⟨v.y, v.x⟩

/-- A sample object: the state after three `process` calls at readings `10, 50, 100`. -/
def sample : PID ℚ :=
  ⟨2, 1 / 10, 3, 0, [⟨3, -1⟩, ⟨4, -2⟩, ⟨5, -3⟩], [100, 50, 10], ⟨485, -235⟩⟩

/-- A sample object in bypass mode. -/
def sampleBypass : PID ℚ :=
  ⟨-1, 1 / 10, 3, 7, [⟨3, -1⟩, ⟨4, -2⟩, ⟨5, -3⟩], [100, 50, 10], ⟨485, -235⟩⟩

/-- A sample object whose retained history has equal `x` and `y` components. -/
def sampleDiag : PID ℚ :=
  ⟨2, 1 / 10, 3, 0, [⟨4, 4⟩, ⟨5, 5⟩, ⟨0, 1⟩], [50, 10, 0], ⟨7, 7⟩⟩

/-- A sample object with `Ki = 0` and `Kd = 0`. -/
def sampleP : PID ℚ :=
  ⟨2, 0, 0, 9, [⟨3, -1⟩, ⟨4, -2⟩, ⟨5, -3⟩], [100, 50, 10], ⟨485, -235⟩⟩

/-- The calls of a session that holds the error `e` at the clock readings
`t0 + delta, t0 + 2 * delta, ..., t0 + N * delta`. -/
def constCalls (t0 delta : α) (e : Vec α) (N : ℕ) : List (α × Vec α) :=
  (List.range N).map fun k => (t0 + ((k + 1 : ℕ) : α) * delta, e)

/-- A sample object with `Kp = 0` and `Kd = 0`, so that only the integral term is left. -/
def sampleI : PID ℚ :=
  ⟨0, 1 / 50000, 0, 0, [⟨3, -1⟩, ⟨4, -2⟩, ⟨5, -3⟩], [100, 50, 10], ⟨485, -235⟩⟩

/-- A call on the object from outside: `setParameters`, `reset` or `process`, with the
clock readings the call takes and its arguments. -/
inductive Op (α : Type) where
  | setParameters (n0 n1 n2 : α) (Kp Ki Kd Kdd : Option α)
  | reset (n0 n1 n2 : α)
  | process (now : α) (input : Vec α)

/-- The object after one outside call; `none` when the call reads past the end of a ring. -/
def PID.step (s : PID α) : Op α → Option (PID α)
  | .setParameters n0 n1 n2 Kp Ki Kd Kdd => some (s.setParameters n0 n1 n2 Kp Ki Kd Kdd)
  | .reset n0 n1 n2 => some (s.reset n0 n1 n2)
  | .process now input => (s.process now input).map Prod.snd

/-- The object after a sequence of outside calls, made in order. -/
def PID.exec (s : PID α) : List (Op α) → Option (PID α)
  | [] => some s
  | c :: rest => (s.step c).bind fun s1 => s1.exec rest

/-- The object with `x` and `y` exchanged in every `err` entry and in `sumErr`. -/
def PID.swap (s : PID α) : PID α :=
  { s with
    err := s.err.map Vec.swap
    sumErr := s.sumErr.swap }

/-- One of the two axes. -/
inductive Axis where
  | x
  | y
deriving DecidableEq

/-- The component of a vector on an axis. -/
def Vec.get (v : Vec α) : Axis → α
  | .x => v.x
  | .y => v.y

/-- A sample object that agrees with `sample` on every `x` component and on the time
history, and differs on `y` components. -/
def sampleX : PID ℚ :=
  ⟨2, 1 / 10, 3, 0, [⟨3, 8⟩, ⟨4, 0⟩, ⟨5, 11⟩], [100, 50, 10], ⟨485, 77⟩⟩

/-! ## Shared lemmas -/

theorem WF_iff_lists (s : PID α) :
    s.WF ↔ ∃ e0 e1 e2 t0 t1 t2, s.err = [e0, e1, e2] ∧ s.time = [t0, t1, t2] := by
  unfold PID.WF
  rw [List.length_eq_three, List.length_eq_three]
  constructor
  · rintro ⟨⟨e0, e1, e2, he⟩, ⟨t0, t1, t2, ht⟩⟩
    exact ⟨e0, e1, e2, t0, t1, t2, he, ht⟩
  · rintro ⟨e0, e1, e2, t0, t1, t2, he, ht⟩
    exact ⟨⟨e0, e1, e2, he⟩, ⟨t0, t1, t2, ht⟩⟩

/-- The object left by `unshiftErr` on three-sample histories. -/
theorem unshiftErr_lists (s : PID α) (now : α) (e e0 e1 e2 : Vec α) (t0 t1 t2 : α)
    (he : s.err = [e0, e1, e2]) (ht : s.time = [t0, t1, t2]) :
    s.unshiftErr now e = some
      { s with
        err := [e, e0, e1]
        time := [now, t0, t1]
        sumErr := ⟨s.sumErr.x + max 35 (now - t0) * e.x,
                   s.sumErr.y + max 35 (now - t0) * e.y⟩ } := by
  simp [PID.unshiftErr, PID.unshiftNow, PID.dt, CUR, he, ht]

/-- The result of `process` outside bypass mode on three-sample histories. -/
theorem process_lists (s : PID α) (now : α) (e e0 e1 e2 : Vec α) (t0 t1 t2 : α)
    (he : s.err = [e0, e1, e2]) (ht : s.time = [t0, t1, t2]) (hKp : s.Kp ≠ -1) :
    s.process now e = some
      (⟨s.Kp * e.x + s.Ki * (s.sumErr.x + max 35 (now - t0) * e.x)
          + s.Kd * (e.x - e0.x) / max 35 (now - t0)
          + s.Kd * (e0.x - e1.x) / max 35 (t0 - t1),
        s.Kp * e.y + s.Ki * (s.sumErr.y + max 35 (now - t0) * e.y)
          + s.Kd * (e.y - e0.y) / max 35 (now - t0)
          + s.Kd * (e0.y - e1.y) / max 35 (t0 - t1)⟩,
       { s with
         err := [e, e0, e1]
         time := [now, t0, t1]
         sumErr := ⟨s.sumErr.x + max 35 (now - t0) * e.x,
                    s.sumErr.y + max 35 (now - t0) * e.y⟩ }) := by
  simp [PID.process, hKp, unshiftErr_lists s now e e0 e1 e2 t0 t1 t2 he ht,
    PID.dt, PID.de, CUR, PREV]

/-- The same result, for an object given field by field. -/
theorem process_mk (Kp Ki Kd Kdd : α) (e0 e1 e2 : Vec α) (t0 t1 t2 : α) (S : Vec α)
    (now : α) (e : Vec α) (hKp : Kp ≠ -1) :
    (⟨Kp, Ki, Kd, Kdd, [e0, e1, e2], [t0, t1, t2], S⟩ : PID α).process now e = some
      (⟨Kp * e.x + Ki * (S.x + max 35 (now - t0) * e.x)
          + Kd * (e.x - e0.x) / max 35 (now - t0)
          + Kd * (e0.x - e1.x) / max 35 (t0 - t1),
        Kp * e.y + Ki * (S.y + max 35 (now - t0) * e.y)
          + Kd * (e.y - e0.y) / max 35 (now - t0)
          + Kd * (e0.y - e1.y) / max 35 (t0 - t1)⟩,
       ⟨Kp, Ki, Kd, Kdd, [e, e0, e1], [now, t0, t1],
        ⟨S.x + max 35 (now - t0) * e.x, S.y + max 35 (now - t0) * e.y⟩⟩) :=
  process_lists _ now e e0 e1 e2 t0 t1 t2 rfl rfl hKp

/-- In bypass mode `process` is the sign command and leaves the object alone. -/
theorem process_bypass (s : PID α) (now : α) (e : Vec α) (hKp : s.Kp = -1) :
    s.process now e = some (⟨20 * sign e.x, 20 * sign e.y⟩, s) := by
  simp [PID.process, hKp]

theorem run_nil (s : PID α) : s.run [] = some ([], s) := rfl

theorem run_cons (s : PID α) (now : α) (e : Vec α) (rest : List (α × Vec α)) :
    s.run ((now, e) :: rest) =
      (s.process now e).bind fun r =>
        (r.2.run rest).bind fun q => some (r.1 :: q.1, q.2) := by
  simp only [PID.run]
  rfl

theorem run_append (s : PID α) (l1 l2 : List (α × Vec α)) :
    s.run (l1 ++ l2) =
      (s.run l1).bind fun r =>
        (r.2.run l2).bind fun q => some (r.1 ++ q.1, q.2) := by
  induction l1 generalizing s with
  | nil =>
    simp only [List.nil_append, run_nil, Option.some_bind, List.nil_append]
    cases s.run l2 <;> rfl
  | cons c rest ih =>
    obtain ⟨now, e⟩ := c
    simp only [List.cons_append, run_cons]
    cases hp : s.process now e with
    | none => rfl
    | some r =>
      simp only [Option.some_bind, ih]
      cases r.2.run rest with
      | none => rfl
      | some q =>
        simp only [Option.some_bind]
        cases q.2.run l2 with
        | none => rfl
        | some w => rfl

/-- The state and last output after `N` calls with a constant error from a reset at `t0`. -/
theorem run_constCalls (s0 : PID α) (t0 delta : α) (e : Vec α) (hKp : s0.Kp ≠ -1) (N : ℕ) :
    ∃ outs e0 e1 e2 t1 t2,
      (s0.reset t0 t0 t0).run (constCalls t0 delta e N) = some (outs,
        { s0 with
          err := [e0, e1, e2]
          time := [t0 + (N : α) * delta, t1, t2]
          sumErr := ⟨(N : α) * max 35 delta * e.x, (N : α) * max 35 delta * e.y⟩ }) ∧
      outs.length = N ∧
      (s0.Kp = 0 → s0.Kd = 0 → 1 ≤ N →
        outs[N - 1]? = some ⟨s0.Ki * ((N : α) * max 35 delta * e.x),
                             s0.Ki * ((N : α) * max 35 delta * e.y)⟩) := by
  induction N with
  | zero =>
    refine ⟨[], ⟨0, 0⟩, ⟨0, 0⟩, ⟨0, 0⟩, t0, t0, ?_, rfl, ?_⟩
    · simp [constCalls, run_nil, PID.reset]
    · intro _ _ h
      omega
  | succ n ih =>
    obtain ⟨outs, e0, e1, e2, t1, t2, hrun, hlen, -⟩ := ih
    have hc : constCalls t0 delta e (n + 1)
        = constCalls t0 delta e n ++ [(t0 + ((n + 1 : ℕ) : α) * delta, e)] := by
      simp [constCalls, List.range_succ]
    have hm : t0 + ((n + 1 : ℕ) : α) * delta - (t0 + (n : α) * delta) = delta := by
      push_cast
      ring
    obtain ⟨v, hp, hv⟩ : ∃ v,
        (⟨s0.Kp, s0.Ki, s0.Kd, s0.Kdd, [e0, e1, e2], [t0 + (n : α) * delta, t1, t2],
          ⟨(n : α) * max 35 delta * e.x, (n : α) * max 35 delta * e.y⟩⟩ : PID α).process
            (t0 + ((n + 1 : ℕ) : α) * delta) e
          = some (v,
            { s0 with
              err := [e, e0, e1]
              time := [t0 + ((n + 1 : ℕ) : α) * delta, t0 + (n : α) * delta, t1]
              sumErr := ⟨((n + 1 : ℕ) : α) * max 35 delta * e.x,
                         ((n + 1 : ℕ) : α) * max 35 delta * e.y⟩ }) ∧
        (s0.Kp = 0 → s0.Kd = 0 →
          v = ⟨s0.Ki * (((n + 1 : ℕ) : α) * max 35 delta * e.x),
               s0.Ki * (((n + 1 : ℕ) : α) * max 35 delta * e.y)⟩) := by
      refine ⟨⟨s0.Kp * e.x + s0.Ki * (((n + 1 : ℕ) : α) * max 35 delta * e.x)
            + s0.Kd * (e.x - e0.x) / max 35 delta
            + s0.Kd * (e0.x - e1.x) / max 35 (t0 + (n : α) * delta - t1),
          s0.Kp * e.y + s0.Ki * (((n + 1 : ℕ) : α) * max 35 delta * e.y)
            + s0.Kd * (e.y - e0.y) / max 35 delta
            + s0.Kd * (e0.y - e1.y) / max 35 (t0 + (n : α) * delta - t1)⟩, ?_, ?_⟩
      · have hx : ∀ z : α, (n : α) * max 35 delta * z + max 35 delta * z
            = ((n + 1 : ℕ) : α) * max 35 delta * z := by
          intro z
          push_cast
          ring
        rw [process_mk _ _ _ _ _ _ _ _ _ _ _ _ _ hKp]
        simp only [hm, hx]
      · intro h0 hd
        simp only [h0, hd, zero_mul, zero_div, add_zero, zero_add]
    refine ⟨outs ++ [v], e, e0, e1, t0 + (n : α) * delta, t1, ?_, ?_, ?_⟩
    · rw [hc, run_append, hrun]
      simp only [Option.some_bind, run_cons, run_nil, hp, List.nil_append]
    · simp [hlen]
    · intro h0 hd _
      rw [List.getElem?_append_right (by simp [hlen]), ← hv h0 hd]
      simp [hlen]

/-- On an all-zero history, any number of zero-error calls returns zero and keeps it zero. -/
theorem run_zero (ts : List α) : ∀ s : PID α,
    s.err = [⟨0, 0⟩, ⟨0, 0⟩, ⟨0, 0⟩] → s.sumErr = ⟨0, 0⟩ → s.time.length = 3 →
    ∃ s1, s.run (ts.map fun t => (t, (⟨0, 0⟩ : Vec α)))
        = some (List.replicate ts.length ⟨0, 0⟩, s1) ∧
      s1.err = [⟨0, 0⟩, ⟨0, 0⟩, ⟨0, 0⟩] ∧ s1.sumErr = ⟨0, 0⟩ := by
  induction ts with
  | nil =>
    intro s he hS _
    exact ⟨s, rfl, he, hS⟩
  | cons t rest ih =>
    intro s he hS ht
    by_cases hKp : s.Kp = -1
    · obtain ⟨s1, hrun, he1, hS1⟩ := ih s he hS ht
      refine ⟨s1, ?_, he1, hS1⟩
      simp only [List.map_cons, run_cons, process_bypass s t _ hKp, Option.some_bind, hrun]
      simp [sign, List.replicate_succ]
    · obtain ⟨t0, t1, t2, ht3⟩ := List.length_eq_three.mp ht
      have hp := process_lists s t ⟨0, 0⟩ _ _ _ t0 t1 t2 he ht3 hKp
      simp only [hS, sub_self, mul_zero, add_zero, zero_div] at hp
      obtain ⟨s1, hrun, he1, hS1⟩ := ih _ (rfl : ({ s with
          err := [⟨0, 0⟩, ⟨0, 0⟩, ⟨0, 0⟩]
          time := [t, t0, t1]
          sumErr := ⟨0, 0⟩ } : PID α).err = _) rfl rfl
      refine ⟨s1, ?_, he1, hS1⟩
      simp only [List.map_cons, run_cons, hp, Option.some_bind, hrun]
      simp [List.replicate_succ]

/-! ## The control law, bypass mode and the history update -/

/-- C1: outside bypass mode (`Kp ≠ -1`), on three-sample histories, `process e` first
runs `unshiftErr`, and on the object `s1` it leaves (where `err[CUR]` is `e`) the
returned velocity is, on each axis,
`Kp * err[CUR] + Ki * sumErr + Kd * de(CUR) / dt(CUR) + Kd * de(PREV) / dt(PREV)`,
the fourth term carrying the gain `Kd`. -/
theorem process_control_law (s : PID α) (now : α) (e : Vec α)
    (hwf : s.WF) (hKp : s.Kp ≠ -1) :
    ∃ s1 c deC dtC deP dtP,
      s.unshiftErr now e = some s1 ∧
      s1.err[CUR]? = some c ∧ c = e ∧
      s1.de CUR = some deC ∧ s1.dt CUR = some dtC ∧
      s1.de PREV = some deP ∧ s1.dt PREV = some dtP ∧
      s.process now e = some
        (⟨s.Kp * c.x + s.Ki * s1.sumErr.x + s.Kd * deC.x / dtC + s.Kd * deP.x / dtP,
          s.Kp * c.y + s.Ki * s1.sumErr.y + s.Kd * deC.y / dtC + s.Kd * deP.y / dtP⟩,
         s1) := by
  obtain ⟨e0, e1, e2, t0, t1, t2, he, ht⟩ := (WF_iff_lists s).mp hwf
  refine ⟨_, e, ⟨e.x - e0.x, e.y - e0.y⟩, max 35 (now - t0),
    ⟨e0.x - e1.x, e0.y - e1.y⟩, max 35 (t0 - t1),
    unshiftErr_lists s now e e0 e1 e2 t0 t1 t2 he ht, ?_, rfl, ?_, ?_, ?_, ?_, ?_⟩
  · simp [CUR]
  · simp [PID.de, CUR]
  · simp [PID.dt, CUR]
  · simp [PID.de, PREV]
  · simp [PID.dt, PREV]
  · exact process_lists s now e e0 e1 e2 t0 t1 t2 he ht hKp

/-- C2: when `Kp = -1`, `process e` returns `{20 * sign e.x, 20 * sign e.y}` and the
unchanged object, whatever the other gains and the histories are.  On each axis the
command is `20` for a positive error, `-20` for a negative error and `0` for a zero
error: `sign` is `1` on positive values, `-1` on negative values and `sign 0 = 0`. -/
theorem process_bypass_mode (s : PID α) (now : α) (e : Vec α) (hKp : s.Kp = -1) :
    s.process now e = some (⟨20 * sign e.x, 20 * sign e.y⟩, s) ∧ sign (0 : α) = 0 ∧
    s.process now e = some
      (⟨if 0 < e.x then 20 else if e.x < 0 then -20 else 0,
        if 0 < e.y then 20 else if e.y < 0 then -20 else 0⟩, s) ∧
    (∀ v : α, 0 < v → sign v = 1) ∧ (∀ v : α, v < 0 → sign v = -1) := by
  have hs : ∀ v : α, 20 * sign v = if 0 < v then 20 else if v < 0 then -20 else 0 := by
    intro v
    unfold sign
    split_ifs <;> norm_num
  refine ⟨process_bypass s now e hKp, by simp [sign], ?_, ?_, ?_⟩
  · rw [process_bypass s now e hKp, hs, hs]
  · intro v hv
    simp [sign, hv]
  · intro v hv
    simp [sign, hv, not_lt_of_gt hv]

/-- C3: outside bypass mode, `process e` at clock reading `now` turns the error ring
`[e0, e1, e2]` into `[e, e0, e1]`, the time ring `[t0, t1, t2]` into `[now, t0, t1]`,
adds `max 35 (now - t0) * e` to `sumErr` on each axis and keeps the four gains. -/
theorem process_history_update (s : PID α) (now : α) (e e0 e1 e2 : Vec α) (t0 t1 t2 : α)
    (he : s.err = [e0, e1, e2]) (ht : s.time = [t0, t1, t2]) (hKp : s.Kp ≠ -1) :
    ∃ out s1, s.process now e = some (out, s1) ∧
      s1.err = [e, e0, e1] ∧ s1.time = [now, t0, t1] ∧
      s1.sumErr.x = s.sumErr.x + max 35 (now - t0) * e.x ∧
      s1.sumErr.y = s.sumErr.y + max 35 (now - t0) * e.y ∧
      s1.Kp = s.Kp ∧ s1.Ki = s.Ki ∧ s1.Kd = s.Kd ∧ s1.Kdd = s.Kdd :=
  ⟨_, _, process_lists s now e e0 e1 e2 t0 t1 t2 he ht hKp,
    rfl, rfl, rfl, rfl, rfl, rfl, rfl, rfl⟩

/-- C4: on a three-sample time history `[t0, t1, t2]`, `dt CUR = max 35 (t0 - t1)` and
`dt PREV = max 35 (t1 - t2)`; hence for `t` in `{CUR, PREV}` the value of `dt t` exists
and is at least `35`, so positive, whatever the order of the timestamps. -/
theorem dt_floored (s : PID α) (t0 t1 t2 : α) (ht : s.time = [t0, t1, t2]) :
    s.dt CUR = some (max 35 (t0 - t1)) ∧ s.dt PREV = some (max 35 (t1 - t2)) ∧
      ∀ t, t = CUR ∨ t = PREV → ∃ d, s.dt t = some d ∧ 35 ≤ d ∧ 0 < d := by
  have hC : s.dt CUR = some (max 35 (t0 - t1)) := by simp [PID.dt, CUR, ht]
  have hP : s.dt PREV = some (max 35 (t1 - t2)) := by simp [PID.dt, PREV, ht]
  refine ⟨hC, hP, ?_⟩
  rintro t (rfl | rfl)
  · exact ⟨_, hC, le_max_left _ _, lt_of_lt_of_le (by norm_num) (le_max_left _ _)⟩
  · exact ⟨_, hP, le_max_left _ _, lt_of_lt_of_le (by norm_num) (le_max_left _ _)⟩

/-- C1 on the sample object, for the error `{1, 1}` at clock reading `120`. -/
theorem process_control_law_witness :
    sample.WF ∧ sample.Kp ≠ -1 ∧
    ∃ s1 c deC dtC deP dtP,
      sample.unshiftErr 120 ⟨1, 1⟩ = some s1 ∧
      s1.err[CUR]? = some c ∧ c = ⟨1, 1⟩ ∧
      s1.de CUR = some deC ∧ s1.dt CUR = some dtC ∧
      s1.de PREV = some deP ∧ s1.dt PREV = some dtP ∧
      sample.process 120 ⟨1, 1⟩ = some
        (⟨sample.Kp * c.x + sample.Ki * s1.sumErr.x + sample.Kd * deC.x / dtC
            + sample.Kd * deP.x / dtP,
          sample.Kp * c.y + sample.Ki * s1.sumErr.y + sample.Kd * deC.y / dtC
            + sample.Kd * deP.y / dtP⟩,
         s1) :=
  ⟨⟨rfl, rfl⟩, by norm_num [sample],
    process_control_law sample 120 ⟨1, 1⟩ ⟨rfl, rfl⟩ (by norm_num [sample])⟩

/-- C2 on the bypass sample object: the error `{4, -2}` is answered by `{20, -20}`. -/
theorem process_bypass_mode_witness :
    sampleBypass.Kp = -1 ∧
    sampleBypass.process 120 ⟨4, -2⟩ = some (⟨20, -20⟩, sampleBypass) ∧
    sign (4 : ℚ) = 1 ∧ sign (-2 : ℚ) = -1 ∧ sign (0 : ℚ) = 0 := by
  obtain ⟨-, h0, hout, hpos, hneg⟩ := process_bypass_mode sampleBypass 120 ⟨4, -2⟩ rfl
  refine ⟨rfl, ?_, hpos 4 (by norm_num), hneg (-2) (by norm_num), h0⟩
  rw [hout]
  norm_num

/-- C3 on the sample object, for the error `{1, 1}` at clock reading `120`. -/
theorem process_history_update_witness :
    sample.err = [⟨3, -1⟩, ⟨4, -2⟩, ⟨5, -3⟩] ∧ sample.time = [100, 50, 10] ∧
    sample.Kp ≠ -1 ∧
    ∃ out s1, sample.process 120 ⟨1, 1⟩ = some (out, s1) ∧
      s1.err = [⟨1, 1⟩, ⟨3, -1⟩, ⟨4, -2⟩] ∧ s1.time = [120, 100, 50] ∧
      s1.sumErr.x = sample.sumErr.x + max 35 (120 - 100) * 1 ∧
      s1.sumErr.y = sample.sumErr.y + max 35 (120 - 100) * 1 ∧
      s1.Kp = sample.Kp ∧ s1.Ki = sample.Ki ∧ s1.Kd = sample.Kd ∧ s1.Kdd = sample.Kdd :=
  ⟨rfl, rfl, by norm_num [sample],
    process_history_update sample 120 ⟨1, 1⟩ ⟨3, -1⟩ ⟨4, -2⟩ ⟨5, -3⟩ 100 50 10 rfl rfl
      (by norm_num [sample])⟩

/-- C4 on the time history `[100, 50, 10]`. -/
theorem dt_floored_witness :
    sample.time = [100, 50, 10] ∧
    sample.dt CUR = some (max 35 (100 - 50)) ∧ sample.dt PREV = some (max 35 (50 - 10)) ∧
      ∀ t, t = CUR ∨ t = PREV → ∃ d, sample.dt t = some d ∧ 35 ≤ d ∧ 0 < d :=
  ⟨rfl, dt_floored sample 100 50 10 rfl⟩

/-! ## Axis symmetry -/

/-- C5 (as stated, refuted): on the object reached from a fresh controller with gains
`Kp = 0, Ki = 1, Kd = 0, Kdd = 0` by one call `process {1, 0}`, the error `{1, 2}`
gives `{70, 70}` while the swapped error `{2, 1}` gives `{105, 35}`, which is not
`{70, 70}` with its axes exchanged. -/
theorem process_swap_counterexample :
    ∃ s1 : PID ℚ,
      (PID.new 0 0 0 (some 0) (some 1) (some 0) (some 0)).process 35 ⟨1, 0⟩
        = some (⟨35, 0⟩, s1) ∧
      (s1.process 70 ⟨1, 2⟩).map Prod.fst = some ⟨70, 70⟩ ∧
      (s1.process 70 (Vec.swap ⟨1, 2⟩)).map Prod.fst = some ⟨105, 35⟩ ∧
      (s1.process 70 (Vec.swap ⟨1, 2⟩)).map Prod.fst
        ≠ (s1.process 70 ⟨1, 2⟩).map fun r => r.1.swap := by
  refine ⟨⟨0, 1, 0, 0, [⟨1, 0⟩, ⟨0, 0⟩, ⟨0, 0⟩], [35, 0, 0], ⟨35, 0⟩⟩, ?_, ?_, ?_, ?_⟩
  · rw [process_lists _ 35 ⟨1, 0⟩ ⟨0, 0⟩ ⟨0, 0⟩ ⟨0, 0⟩ 0 0 0 rfl rfl
      (by norm_num [PID.new, PID.setParameters, PID.reset])]
    norm_num [PID.new, PID.setParameters, PID.reset, blank]
  · rw [process_lists _ 70 ⟨1, 2⟩ ⟨1, 0⟩ ⟨0, 0⟩ ⟨0, 0⟩ 35 0 0 rfl rfl (by norm_num)]
    norm_num
  · rw [Vec.swap, process_lists _ 70 ⟨2, 1⟩ ⟨1, 0⟩ ⟨0, 0⟩ ⟨0, 0⟩ 35 0 0 rfl rfl (by norm_num)]
    norm_num
  · rw [Vec.swap, process_lists _ 70 ⟨2, 1⟩ ⟨1, 0⟩ ⟨0, 0⟩ ⟨0, 0⟩ 35 0 0 rfl rfl (by norm_num),
      process_lists _ 70 ⟨1, 2⟩ ⟨1, 0⟩ ⟨0, 0⟩ ⟨0, 0⟩ 35 0 0 rfl rfl (by norm_num)]
    norm_num [Vec.swap]

/-- C5 (amended): in bypass mode, and on three-sample histories whose entries at
`CUR` and `PREV` and whose `sumErr` have equal `x` and `y` components, `process`
returns a result, and on the error with its axes exchanged it returns the velocity it
gives on the original error with `x` and `y` exchanged. -/
theorem process_swap_of_diagonal_history (s : PID α) (now : α) (e : Vec α)
    (h : s.Kp = -1 ∨
      (s.WF ∧ (∀ i v, i < 2 → s.err[i]? = some v → v.x = v.y) ∧ s.sumErr.x = s.sumErr.y)) :
    (s.process now e).isSome ∧
      (s.process now e.swap).map Prod.fst = (s.process now e).map fun r => r.1.swap := by
  by_cases hKp : s.Kp = -1
  · simp [process_bypass s now _ hKp, Vec.swap]
  · rcases h with h | ⟨hwf, hd, hS⟩
    · exact absurd h hKp
    · obtain ⟨e0, e1, e2, t0, t1, t2, he, ht⟩ := (WF_iff_lists s).mp hwf
      have h0 : e0.x = e0.y := hd 0 e0 (by norm_num) (by simp [he])
      have h1 : e1.x = e1.y := hd 1 e1 (by norm_num) (by simp [he])
      rw [process_lists s now e.swap e0 e1 e2 t0 t1 t2 he ht hKp,
        process_lists s now e e0 e1 e2 t0 t1 t2 he ht hKp]
      simp [Vec.swap, h0, h1, hS]

/-- C5 (amended) on the diagonal sample object, for the error `{1, 2}`. -/
theorem process_swap_of_diagonal_history_witness :
    (sampleDiag.Kp = -1 ∨
      (sampleDiag.WF ∧ (∀ i v, i < 2 → sampleDiag.err[i]? = some v → v.x = v.y) ∧
        sampleDiag.sumErr.x = sampleDiag.sumErr.y)) ∧
    (sampleDiag.process 60 ⟨1, 2⟩).isSome ∧
      (sampleDiag.process 60 (Vec.swap ⟨1, 2⟩)).map Prod.fst
        = (sampleDiag.process 60 ⟨1, 2⟩).map fun r => r.1.swap :=
  have hd : sampleDiag.Kp = -1 ∨
      (sampleDiag.WF ∧ (∀ i v, i < 2 → sampleDiag.err[i]? = some v → v.x = v.y) ∧
        sampleDiag.sumErr.x = sampleDiag.sumErr.y) := by
    refine Or.inr ⟨⟨rfl, rfl⟩, ?_, rfl⟩
    intro i v hi hv
    interval_cases i
    · simp [sampleDiag] at hv; subst hv; rfl
    · simp [sampleDiag] at hv; subst hv; rfl
  ⟨hd, process_swap_of_diagonal_history sampleDiag 60 ⟨1, 2⟩ hd⟩

/-! ## Sessions from a reset -/

/-- C6: from an object with `Kp ≠ -1` reset at `t0`, `N` calls `process {10, 0}` at the
readings `t0 + delta, ..., t0 + N * delta` all return, and leave
`sumErr.x = N * max 35 delta * 10` and `sumErr.y = 0`; when moreover `Kp = 0`,
`Kd = 0` and `N ≥ 1`, the `N`-th output has `x = Ki * N * max 35 delta * 10`. -/
theorem integral_accumulation (s0 : PID α) (t0 delta : α) (N : ℕ) (hKp : s0.Kp ≠ -1) :
    ∃ outs s1,
      (s0.reset t0 t0 t0).run (constCalls t0 delta ⟨10, 0⟩ N) = some (outs, s1) ∧
      outs.length = N ∧
      s1.sumErr.x = (N : α) * max 35 delta * 10 ∧ s1.sumErr.y = 0 ∧
      (s0.Kp = 0 → s0.Kd = 0 → 1 ≤ N →
        ∃ v, outs[N - 1]? = some v ∧ v.x = s0.Ki * (N : α) * max 35 delta * 10) := by
  obtain ⟨outs, e0, e1, e2, t1, t2, hrun, hlen, hout⟩ :=
    run_constCalls s0 t0 delta ⟨10, 0⟩ hKp N
  refine ⟨outs, _, hrun, hlen, rfl, by simp, ?_⟩
  intro h0 hd hN
  exact ⟨_, hout h0 hd hN, by simp only; ring⟩

/-- C6 for three calls, `40` apart, from a reset at `7`. -/
theorem integral_accumulation_witness :
    sampleI.Kp ≠ -1 ∧
    ∃ outs s1,
      (sampleI.reset 7 7 7).run (constCalls 7 40 ⟨10, 0⟩ 3) = some (outs, s1) ∧
      outs.length = 3 ∧
      s1.sumErr.x = ((3 : ℕ) : ℚ) * max 35 40 * 10 ∧ s1.sumErr.y = 0 ∧
      ∃ v, outs[3 - 1]? = some v ∧ v.x = sampleI.Ki * ((3 : ℕ) : ℚ) * max 35 40 * 10 := by
  refine ⟨by norm_num [sampleI], ?_⟩
  obtain ⟨outs, s1, h1, h2, h3, h4, h5⟩ :=
    integral_accumulation sampleI 7 40 3 (by norm_num [sampleI])
  exact ⟨outs, s1, h1, h2, h3, h4, h5 rfl rfl (by norm_num)⟩

/-- C7: after `reset` (whatever its three clock readings and the gains, bypass
included), any number of consecutive calls `process {0, 0}` at any clock readings
each return `{0, 0}`, and afterwards every `err` entry and `sumErr` are `{0, 0}`. -/
theorem zero_error_steady_state (s0 : PID α) (n0 n1 n2 : α) (ts : List α) :
    ∃ s1,
      (s0.reset n0 n1 n2).run (ts.map fun t => (t, (⟨0, 0⟩ : Vec α)))
        = some (List.replicate ts.length ⟨0, 0⟩, s1) ∧
      s1.err = [⟨0, 0⟩, ⟨0, 0⟩, ⟨0, 0⟩] ∧ s1.sumErr = ⟨0, 0⟩ :=
  run_zero ts (s0.reset n0 n1 n2) rfl rfl rfl

/-- C8: for every object `s`, `reset` followed by `process e` returns a result, and it
is the output and the object that a controller freshly constructed with the gains
of `s` at the same clock readings gives on its first `process e`; the same holds for
every longer session. -/
theorem reset_isolation (s : PID α) (n0 n1 n2 t1 : α) (e : Vec α) :
    ((s.reset n0 n1 n2).process t1 e).isSome ∧
    (s.reset n0 n1 n2).process t1 e
      = (PID.new n0 n1 n2 (some s.Kp) (some s.Ki) (some s.Kd) (some s.Kdd)).process t1 e ∧
    ∀ calls, (s.reset n0 n1 n2).run calls
      = (PID.new n0 n1 n2 (some s.Kp) (some s.Ki) (some s.Kd) (some s.Kdd)).run calls := by
  have h : s.reset n0 n1 n2
      = PID.new n0 n1 n2 (some s.Kp) (some s.Ki) (some s.Kd) (some s.Kdd) := rfl
  refine ⟨?_, by rw [h], fun calls => by rw [h]⟩
  by_cases hKp : s.Kp = -1
  · rw [process_bypass _ t1 e (show (s.reset n0 n1 n2).Kp = -1 from hKp)]
    rfl
  · rw [process_lists (s.reset n0 n1 n2) t1 e _ _ _ n0 n1 n2 rfl rfl hKp]
    rfl

/-- C9: with `Kp ≠ -1`, `Ki = 0` and `Kd = 0` (any `Kdd`), on three-sample histories
`process e` returns `{Kp * e.x, Kp * e.y}`; and a controller constructed with gains
`1, 0, 0, 0` returns `{5, -3}` on its first call `process {5, -3}`. -/
theorem pure_proportional (s : PID α) (now : α) (e : Vec α)
    (hwf : s.WF) (hKp : s.Kp ≠ -1) (hKi : s.Ki = 0) (hKd : s.Kd = 0) :
    (s.process now e).map Prod.fst = some ⟨s.Kp * e.x, s.Kp * e.y⟩ ∧
    ∀ n0 n1 n2 t : α,
      ((PID.new n0 n1 n2 (some 1) (some 0) (some 0) (some 0)).process t ⟨5, -3⟩).map Prod.fst
        = some ⟨5, -3⟩ := by
  have key : ∀ (r : PID α) (t : α) (v : Vec α), r.WF → r.Kp ≠ -1 → r.Ki = 0 → r.Kd = 0 →
      (r.process t v).map Prod.fst = some ⟨r.Kp * v.x, r.Kp * v.y⟩ := by
    intro r t v hr h1 h2 h3
    obtain ⟨e0, e1, e2, t0, t1, t2, he, ht⟩ := (WF_iff_lists r).mp hr
    rw [process_lists r t v e0 e1 e2 t0 t1 t2 he ht h1]
    simp [h2, h3]
  refine ⟨key s now e hwf hKp hKi hKd, ?_⟩
  intro n0 n1 n2 t
  have h := key (PID.new n0 n1 n2 (some 1) (some 0) (some 0) (some 0)) t ⟨5, -3⟩
    ⟨rfl, rfl⟩ (by norm_num [PID.new, PID.setParameters, PID.reset]) rfl rfl
  rw [h]
  simp [PID.new, PID.setParameters, PID.reset]

/-- C9 on the proportional-only sample object. -/
theorem pure_proportional_witness :
    sampleP.WF ∧ sampleP.Kp ≠ -1 ∧ sampleP.Ki = 0 ∧ sampleP.Kd = 0 ∧
    (sampleP.process 120 ⟨5, -3⟩).map Prod.fst = some ⟨sampleP.Kp * 5, sampleP.Kp * -3⟩ ∧
    ∀ n0 n1 n2 t : ℚ,
      ((PID.new n0 n1 n2 (some 1) (some 0) (some 0) (some 0)).process t ⟨5, -3⟩).map Prod.fst
        = some ⟨5, -3⟩ :=
  ⟨⟨rfl, rfl⟩, by norm_num [sampleP], rfl, rfl,
    pure_proportional sampleP 120 ⟨5, -3⟩ ⟨rfl, rfl⟩ (by norm_num [sampleP]) rfl rfl⟩

/-- C10: outside bypass mode, when the clock reading `now` is less than `35` after the
previous sample (`now - t0 < 35`), `process e` divides the current difference
`e - e0` by `35` in the derivative term and adds exactly `35 * e` to `sumErr`:
`dt CUR` of the updated object is `35`, not the true elapsed time. -/
theorem dt_floor_end_to_end (s : PID α) (now : α) (e e0 e1 e2 : Vec α) (t0 t1 t2 : α)
    (he : s.err = [e0, e1, e2]) (ht : s.time = [t0, t1, t2]) (hKp : s.Kp ≠ -1)
    (hlt : now - t0 < 35) :
    ∃ s1,
      s.unshiftErr now e = some s1 ∧
      s1.dt CUR = some 35 ∧
      s1.de CUR = some ⟨e.x - e0.x, e.y - e0.y⟩ ∧
      s1.sumErr = ⟨s.sumErr.x + 35 * e.x, s.sumErr.y + 35 * e.y⟩ ∧
      s.process now e = some
        (⟨s.Kp * e.x + s.Ki * (s.sumErr.x + 35 * e.x)
            + s.Kd * (e.x - e0.x) / 35
            + s.Kd * (e0.x - e1.x) / max 35 (t0 - t1),
          s.Kp * e.y + s.Ki * (s.sumErr.y + 35 * e.y)
            + s.Kd * (e.y - e0.y) / 35
            + s.Kd * (e0.y - e1.y) / max 35 (t0 - t1)⟩,
         s1) := by
  have hm : max 35 (now - t0) = 35 := max_eq_left (le_of_lt hlt)
  refine ⟨_, unshiftErr_lists s now e e0 e1 e2 t0 t1 t2 he ht, ?_, ?_, ?_, ?_⟩
  · simp [PID.dt, CUR, hm]
  · simp [PID.de, CUR]
  · simp [hm]
  · rw [process_lists s now e e0 e1 e2 t0 t1 t2 he ht hKp, hm]

/-- C10 on the sample object, one millisecond after its last sample. -/
theorem dt_floor_end_to_end_witness :
    sample.err = [⟨3, -1⟩, ⟨4, -2⟩, ⟨5, -3⟩] ∧ sample.time = [100, 50, 10] ∧
    sample.Kp ≠ -1 ∧ (101 : ℚ) - 100 < 35 ∧
    ∃ s1,
      sample.unshiftErr 101 ⟨1, 2⟩ = some s1 ∧
      s1.dt CUR = some 35 ∧
      s1.de CUR = some ⟨1 - 3, 2 - -1⟩ ∧
      s1.sumErr = ⟨sample.sumErr.x + 35 * 1, sample.sumErr.y + 35 * 2⟩ ∧
      sample.process 101 ⟨1, 2⟩ = some
        (⟨sample.Kp * 1 + sample.Ki * (sample.sumErr.x + 35 * 1)
            + sample.Kd * (1 - 3) / 35
            + sample.Kd * (3 - 4) / max 35 (100 - 50),
          sample.Kp * 2 + sample.Ki * (sample.sumErr.y + 35 * 2)
            + sample.Kd * (2 - -1) / 35
            + sample.Kd * (-1 - -2) / max 35 (100 - 50)⟩,
         s1) :=
  ⟨rfl, rfl, by norm_num [sample], by norm_num,
    dt_floor_end_to_end sample 101 ⟨1, 2⟩ ⟨3, -1⟩ ⟨4, -2⟩ ⟨5, -3⟩ 100 50 10 rfl rfl
      (by norm_num [sample]) (by norm_num)⟩

/-! ## `reset`, `setParameters` and the constructor -/

/-- C11 (as stated, refuted): when the clock advances from `1000` to `1001` between the
second and the third `Date.now()` of `reset`, the time history is `[1000, 1000, 1001]`,
whose entries are not three copies of one timestamp. -/
theorem reset_time_counterexample :
    (sample.reset 1000 1000 1001).time = [1000, 1000, 1001] ∧
    ¬ ∃ t : ℚ, (sample.reset 1000 1000 1001).time = [t, t, t] := by
  refine ⟨rfl, ?_⟩
  rintro ⟨t, ht⟩
  simp only [PID.reset, List.cons.injEq, and_true] at ht
  obtain ⟨h0, -, h2⟩ := ht
  rw [← h0] at h2
  norm_num at h2

/-- C11 (amended): after `reset`, `err` is three zero vectors, `time` holds the three
clock readings of the call in the order they were read (so three copies of `now` when
the clock reads `now` all three times), `sumErr` is `{0, 0}` and the four gains are
those from before the call. -/
theorem reset_postcondition (s : PID α) (n0 n1 n2 : α) :
    (s.reset n0 n1 n2).err = [⟨0, 0⟩, ⟨0, 0⟩, ⟨0, 0⟩] ∧
    (s.reset n0 n1 n2).time = [n0, n1, n2] ∧
    (∀ now : α, (s.reset now now now).time = [now, now, now]) ∧
    (s.reset n0 n1 n2).sumErr = ⟨0, 0⟩ ∧
    (s.reset n0 n1 n2).Kp = s.Kp ∧ (s.reset n0 n1 n2).Ki = s.Ki ∧
    (s.reset n0 n1 n2).Kd = s.Kd ∧ (s.reset n0 n1 n2).Kdd = s.Kdd :=
  ⟨rfl, rfl, fun _ => rfl, rfl, rfl, rfl, rfl, rfl⟩

/-- C12: `setParameters` with four supplied values (any values, `Kp = -1` included) is
total; the gains of the result are the four arguments, its `err`, `time` and `sumErr`
are those of `reset`, and the result is the same whatever the prior object was. -/
theorem setParameters_postcondition (s r : PID α) (n0 n1 n2 Kp Ki Kd Kdd : α) :
    s.setParameters n0 n1 n2 (some Kp) (some Ki) (some Kd) (some Kdd)
      = ⟨Kp, Ki, Kd, Kdd, (s.reset n0 n1 n2).err, (s.reset n0 n1 n2).time,
          (s.reset n0 n1 n2).sumErr⟩ ∧
    s.setParameters n0 n1 n2 (some Kp) (some Ki) (some Kd) (some Kdd)
      = r.setParameters n0 n1 n2 (some Kp) (some Ki) (some Kd) (some Kdd) ∧
    (s.setParameters n0 n1 n2 (some (-1)) (some Ki) (some Kd) (some Kdd)).Kp = -1 :=
  ⟨rfl, rfl, rfl⟩

/-- C16: a controller constructed with no arguments, and an object on which
`setParameters` is called with no arguments, has gains `0.300086, 0.00002, 20.079, 0`;
in both, each supplied argument replaces its own default and no other. -/
theorem default_gains (s : PID α) (n0 n1 n2 : α) (Kp Ki Kd Kdd : Option α) :
    ((PID.new n0 n1 n2 none none none none : PID α).Kp = 0.300086 ∧
      (PID.new n0 n1 n2 none none none none : PID α).Ki = 0.00002 ∧
      (PID.new n0 n1 n2 none none none none : PID α).Kd = 20.079 ∧
      (PID.new n0 n1 n2 none none none none : PID α).Kdd = 0) ∧
    ((s.setParameters n0 n1 n2 none none none none).Kp = 0.300086 ∧
      (s.setParameters n0 n1 n2 none none none none).Ki = 0.00002 ∧
      (s.setParameters n0 n1 n2 none none none none).Kd = 20.079 ∧
      (s.setParameters n0 n1 n2 none none none none).Kdd = 0) ∧
    ((PID.new n0 n1 n2 Kp Ki Kd Kdd).Kp = Kp.getD 0.300086 ∧
      (PID.new n0 n1 n2 Kp Ki Kd Kdd).Ki = Ki.getD 0.00002 ∧
      (PID.new n0 n1 n2 Kp Ki Kd Kdd).Kd = Kd.getD 20.079 ∧
      (PID.new n0 n1 n2 Kp Ki Kd Kdd).Kdd = Kdd.getD 0) ∧
    ((s.setParameters n0 n1 n2 Kp Ki Kd Kdd).Kp = Kp.getD 0.300086 ∧
      (s.setParameters n0 n1 n2 Kp Ki Kd Kdd).Ki = Ki.getD 0.00002 ∧
      (s.setParameters n0 n1 n2 Kp Ki Kd Kdd).Kd = Kd.getD 20.079 ∧
      (s.setParameters n0 n1 n2 Kp Ki Kd Kdd).Kdd = Kdd.getD 0) ∧
    ((0.300086 : α) = 300086 / 1000000 ∧ (0.00002 : α) = 2 / 100000 ∧
      (20.079 : α) = 20079 / 1000) := by
  refine ⟨⟨rfl, rfl, rfl, rfl⟩, ⟨rfl, rfl, rfl, rfl⟩, ⟨rfl, rfl, rfl, rfl⟩,
    ⟨rfl, rfl, rfl, rfl⟩, ?_, ?_, ?_⟩ <;> norm_num

/-- C18: outside bypass mode, the first `process e` after `reset`, at clock reading
`t1`, returns `(Kp + Ki * d + Kd / d) * e` on each axis, where `d = max 35 (t1 - n0)`
and `n0` is the first clock reading of `reset` (so `d = max 35 (t1 - t0)` when the three
readings are `t0`): the current difference is `e`, not zero, and the previous
difference is zero. -/
theorem first_call_after_reset (s : PID α) (n0 n1 n2 t1 : α) (e : Vec α)
    (hKp : s.Kp ≠ -1) :
    ∃ s1,
      (s.reset n0 n1 n2).process t1 e = some
        (⟨(s.Kp + s.Ki * max 35 (t1 - n0) + s.Kd / max 35 (t1 - n0)) * e.x,
          (s.Kp + s.Ki * max 35 (t1 - n0) + s.Kd / max 35 (t1 - n0)) * e.y⟩, s1) ∧
      s1.dt CUR = some (max 35 (t1 - n0)) ∧
      s1.de CUR = some e ∧ s1.de PREV = some ⟨0, 0⟩ := by
  refine ⟨⟨s.Kp, s.Ki, s.Kd, s.Kdd, [e, ⟨0, 0⟩, ⟨0, 0⟩], [t1, n0, n1],
    ⟨max 35 (t1 - n0) * e.x, max 35 (t1 - n0) * e.y⟩⟩, ?_, ?_, ?_, ?_⟩
  · rw [process_lists (s.reset n0 n1 n2) t1 e _ _ _ n0 n1 n2 rfl rfl hKp]
    simp only [PID.reset, sub_zero, zero_add, mul_zero, zero_div, add_zero, sub_self]
    congr 2
    congr 1 <;> ring
  · simp [PID.dt, CUR]
  · simp [PID.de, CUR]
  · simp [PID.de, PREV]

/-- C18 on the sample object, reset at `0` and called `40` later. -/
theorem first_call_after_reset_witness :
    sample.Kp ≠ -1 ∧
    ∃ s1,
      (sample.reset 0 0 0).process 40 ⟨5, -3⟩ = some
        (⟨(sample.Kp + sample.Ki * max 35 (40 - 0) + sample.Kd / max 35 (40 - 0)) * 5,
          (sample.Kp + sample.Ki * max 35 (40 - 0) + sample.Kd / max 35 (40 - 0)) * -3⟩,
         s1) ∧
      s1.dt CUR = some (max 35 (40 - 0)) ∧
      s1.de CUR = some ⟨5, -3⟩ ∧ s1.de PREV = some ⟨0, 0⟩ :=
  ⟨by norm_num [sample], first_call_after_reset sample 0 0 0 40 ⟨5, -3⟩ (by norm_num [sample])⟩

/-! ## Reachable objects, the unused gain and the two axes -/

/-- On three-sample histories `process` returns and leaves three-sample histories. -/
theorem process_WF (s : PID α) (now : α) (e : Vec α) (h : s.WF) :
    ∃ out s1, s.process now e = some (out, s1) ∧ s1.WF ∧
      if s.Kp = -1 then s1.err = s.err ∧ s1.time = s.time
      else s1.err = e :: s.err.dropLast ∧ s1.time = now :: s.time.dropLast := by
  by_cases hKp : s.Kp = -1
  · exact ⟨_, s, process_bypass s now e hKp, h, by simp [hKp]⟩
  · obtain ⟨e0, e1, e2, t0, t1, t2, he, ht⟩ := (WF_iff_lists s).mp h
    exact ⟨_, _, process_lists s now e e0 e1 e2 t0 t1 t2 he ht hKp, ⟨rfl, rfl⟩,
      by simp [hKp, he, ht]⟩

/-- Every outside call on three-sample histories returns and leaves three-sample histories. -/
theorem step_WF (s : PID α) (op : Op α) (h : s.WF) : ∃ s1, s.step op = some s1 ∧ s1.WF := by
  cases op with
  | setParameters n0 n1 n2 Kp Ki Kd Kdd => exact ⟨_, rfl, ⟨rfl, rfl⟩⟩
  | reset n0 n1 n2 => exact ⟨_, rfl, ⟨rfl, rfl⟩⟩
  | process now e =>
    obtain ⟨out, s1, hp, hwf, -⟩ := process_WF s now e h
    exact ⟨s1, by simp [PID.step, hp], hwf⟩

/-- Every sequence of outside calls on three-sample histories returns and keeps them. -/
theorem exec_WF (ops : List (Op α)) : ∀ s : PID α, s.WF → ∃ s1, s.exec ops = some s1 ∧ s1.WF := by
  induction ops with
  | nil => exact fun s h => ⟨s, rfl, h⟩
  | cons op rest ih =>
    intro s h
    obtain ⟨s1, hs, h1⟩ := step_WF s op h
    obtain ⟨s2, he, h2⟩ := ih s1 h1
    exact ⟨s2, by simp [PID.exec, hs, he], h2⟩

/-- The floored interval is positive. -/
theorem max_35_ne_zero (v : α) : max 35 v ≠ 0 :=
  ne_of_gt (lt_of_lt_of_le (by norm_num) (le_max_left 35 v))

/-- One `process` call on two objects that differ in `Kdd` only. -/
theorem process_withKdd (s : PID α) (k now : α) (e : Vec α) (h : s.WF) :
    ∃ out s1, s.process now e = some (out, s1) ∧ s1.WF ∧
      ({ s with Kdd := k } : PID α).process now e = some (out, { s1 with Kdd := k }) := by
  by_cases hKp : s.Kp = -1
  · exact ⟨_, s, process_bypass s now e hKp, h, process_bypass _ now e hKp⟩
  · obtain ⟨e0, e1, e2, t0, t1, t2, he, ht⟩ := (WF_iff_lists s).mp h
    exact ⟨_, _, process_lists s now e e0 e1 e2 t0 t1 t2 he ht hKp, ⟨rfl, rfl⟩,
      process_lists { s with Kdd := k } now e e0 e1 e2 t0 t1 t2 he ht hKp⟩

/-- C13: for an object with three-sample histories and the same object with `Kdd`
replaced by any `k`, every session of `process` calls returns the same outputs, and
the two final objects have the same `err`, `time`, `sumErr` (they differ in `Kdd`
only). -/
theorem Kdd_no_influence (s : PID α) (k : α) (calls : List (α × Vec α)) (hwf : s.WF) :
    ∃ outs s1, s.run calls = some (outs, s1) ∧
      ({ s with Kdd := k } : PID α).run calls = some (outs, { s1 with Kdd := k }) := by
  induction calls generalizing s with
  | nil => exact ⟨[], s, rfl, rfl⟩
  | cons c rest ih =>
    obtain ⟨now, e⟩ := c
    obtain ⟨out, s1, hp, hwf1, hpk⟩ := process_withKdd s k now e hwf
    obtain ⟨outs, s2, hr, hrk⟩ := ih s1 hwf1
    refine ⟨out :: outs, s2, ?_, ?_⟩
    · simp only [run_cons, hp, Option.some_bind, hr]
    · simp only [run_cons, hpk, Option.some_bind, hrk]

/-- C13 on the sample object, `Kdd` replaced by `5`, over two calls. -/
theorem Kdd_no_influence_witness :
    sample.WF ∧
    ∃ outs s1, sample.run [(120, ⟨1, 1⟩), (130, ⟨0, 2⟩)] = some (outs, s1) ∧
      ({ sample with Kdd := 5 } : PID ℚ).run [(120, ⟨1, 1⟩), (130, ⟨0, 2⟩)]
        = some (outs, { s1 with Kdd := 5 }) :=
  ⟨⟨rfl, rfl⟩, Kdd_no_influence sample 5 [(120, ⟨1, 1⟩), (130, ⟨0, 2⟩)] ⟨rfl, rfl⟩⟩

/-- C14: every object reached from construction by a sequence of `setParameters`,
`reset` and `process` calls has exactly three `err` and three `time` entries; on it,
`process` in bypass mode leaves both rings as they are and otherwise pushes one entry
at the front and drops one from the back of each, and `reset` and `setParameters`
reinitialise both. -/
theorem ring_size_invariant (n0 n1 n2 : α) (Kp Ki Kd Kdd : Option α) (ops : List (Op α)) :
    ∃ s, (PID.new n0 n1 n2 Kp Ki Kd Kdd).exec ops = some s ∧
      s.err.length = 3 ∧ s.time.length = 3 ∧
      (∀ now e, ∃ out s1, s.process now e = some (out, s1) ∧
        if s.Kp = -1 then s1.err = s.err ∧ s1.time = s.time
        else s1.err = e :: s.err.dropLast ∧ s1.time = now :: s.time.dropLast) ∧
      (∀ m0 m1 m2, (s.reset m0 m1 m2).err = [⟨0, 0⟩, ⟨0, 0⟩, ⟨0, 0⟩] ∧
        (s.reset m0 m1 m2).time = [m0, m1, m2]) ∧
      (∀ m0 m1 m2 a b c d,
        (s.setParameters m0 m1 m2 a b c d).err = [⟨0, 0⟩, ⟨0, 0⟩, ⟨0, 0⟩] ∧
        (s.setParameters m0 m1 m2 a b c d).time = [m0, m1, m2]) := by
  obtain ⟨s, hs, hwf⟩ := exec_WF ops (PID.new n0 n1 n2 Kp Ki Kd Kdd) ⟨rfl, rfl⟩
  refine ⟨s, hs, hwf.1, hwf.2, ?_, fun _ _ _ => ⟨rfl, rfl⟩, fun _ _ _ _ _ _ _ => ⟨rfl, rfl⟩⟩
  intro now e
  obtain ⟨out, s1, hp, -, hr⟩ := process_WF s now e hwf
  exact ⟨out, s1, hp, hr⟩

/-- C15: on every object reached from construction by a sequence of `setParameters`,
`reset` and `process` calls, `process` returns a result for every error and clock
reading; on the object it leaves, the ring indices `0`, `1`, `2` are in bounds and
`dt CUR` and `dt PREV` are nonzero. -/
theorem process_total (n0 n1 n2 : α) (Kp Ki Kd Kdd : Option α) (ops : List (Op α))
    (now : α) (e : Vec α) :
    ∃ s out s1 dC dP, (PID.new n0 n1 n2 Kp Ki Kd Kdd).exec ops = some s ∧
      s.process now e = some (out, s1) ∧
      s1.dt CUR = some dC ∧ dC ≠ 0 ∧ s1.dt PREV = some dP ∧ dP ≠ 0 ∧
      (s1.err[0]?).isSome ∧ (s1.err[1]?).isSome ∧ (s1.err[2]?).isSome ∧
      (s1.time[0]?).isSome ∧ (s1.time[1]?).isSome ∧ (s1.time[2]?).isSome := by
  obtain ⟨s, hs, hwf⟩ := exec_WF ops (PID.new n0 n1 n2 Kp Ki Kd Kdd) ⟨rfl, rfl⟩
  obtain ⟨out, s1, hp, hwf1, -⟩ := process_WF s now e hwf
  obtain ⟨e0, e1, e2, t0, t1, t2, he, ht⟩ := (WF_iff_lists s1).mp hwf1
  refine ⟨s, out, s1, max 35 (t0 - t1), max 35 (t1 - t2), hs, hp, ?_, max_35_ne_zero _, ?_,
    max_35_ne_zero _, ?_⟩
  · simp [PID.dt, CUR, ht]
  · simp [PID.dt, PREV, ht]
  · simp [he, ht]

/-- C17: outside bypass mode, for two objects with the same `Kp`, `Ki`, `Kd` and the
same time history whose `err` entries and `sumErr` agree on one axis, and two errors
that agree on that axis, processed at the same clock reading, the outputs, the new
`err` entries and the new `sumErr` agree on that axis, whatever the other axis holds.
The axis is `x` or `y`. -/
theorem axis_independence (a b : PID α) (now : α) (e1 e2 : Vec α) (ax : Axis)
    (hwf : a.WF) (hKp : a.Kp ≠ -1)
    (hp : b.Kp = a.Kp) (hi : b.Ki = a.Ki) (hd : b.Kd = a.Kd) (ht : b.time = a.time)
    (herr : b.err.map (fun v => v.get ax) = a.err.map (fun v => v.get ax))
    (hsum : b.sumErr.get ax = a.sumErr.get ax) (he : e2.get ax = e1.get ax) :
    ∃ o1 a1 o2 b1, a.process now e1 = some (o1, a1) ∧ b.process now e2 = some (o2, b1) ∧
      o2.get ax = o1.get ax ∧
      b1.err.map (fun v => v.get ax) = a1.err.map (fun v => v.get ax) ∧
      b1.sumErr.get ax = a1.sumErr.get ax := by
  obtain ⟨c0, c1, c2, t0, t1, t2, hae, hat⟩ := (WF_iff_lists a).mp hwf
  have hbl : b.err.length = 3 := by
    have := congrArg List.length herr
    simpa [hae] using this
  obtain ⟨f0, f1, f2, hbe⟩ := List.length_eq_three.mp hbl
  rw [hae, hbe] at herr
  simp only [List.map_cons, List.map_nil, List.cons.injEq, and_true] at herr
  obtain ⟨h0, h1, -⟩ := herr
  refine ⟨_, _, _, _, process_lists a now e1 c0 c1 c2 t0 t1 t2 hae hat hKp,
    process_lists b now e2 f0 f1 f2 t0 t1 t2 hbe (ht.trans hat) (hp ▸ hKp), ?_, ?_, ?_⟩
  · cases ax <;> simp only [Vec.get] at * <;> simp only [hp, hi, hd, h0, h1, hsum, he]
  · cases ax <;> simp only [Vec.get] at * <;> simp [h0, h1, he, Vec.get]
  · cases ax <;> simp only [Vec.get] at * <;> simp only [hsum, he]

/-- C17 on the `x` axis, for two sample objects and two errors that differ on `y` only. -/
theorem axis_independence_witness :
    sample.WF ∧ sample.Kp ≠ -1 ∧
    sampleX.Kp = sample.Kp ∧ sampleX.Ki = sample.Ki ∧ sampleX.Kd = sample.Kd ∧
    sampleX.time = sample.time ∧
    sampleX.err.map (fun v => v.get Axis.x) = sample.err.map (fun v => v.get Axis.x) ∧
    sampleX.sumErr.get Axis.x = sample.sumErr.get Axis.x ∧
    (⟨1, 9⟩ : Vec ℚ).get Axis.x = (⟨1, 1⟩ : Vec ℚ).get Axis.x ∧
    ∃ o1 a1 o2 b1, sample.process 120 ⟨1, 1⟩ = some (o1, a1) ∧
      sampleX.process 120 ⟨1, 9⟩ = some (o2, b1) ∧
      o2.get Axis.x = o1.get Axis.x ∧
      b1.err.map (fun v => v.get Axis.x) = a1.err.map (fun v => v.get Axis.x) ∧
      b1.sumErr.get Axis.x = a1.sumErr.get Axis.x :=
  ⟨⟨rfl, rfl⟩, by norm_num [sample], rfl, rfl, rfl, rfl, rfl, rfl, rfl,
    axis_independence sample sampleX 120 ⟨1, 1⟩ ⟨1, 9⟩ Axis.x ⟨rfl, rfl⟩
      (by norm_num [sample]) rfl rfl rfl rfl rfl rfl rfl⟩

/-- C19: for every object `s` with three-sample histories, and for every object in
bypass mode, `process e` returns an output and an object, and on `s` with `x` and `y`
exchanged in every `err` entry and in `sumErr`, `process` of the exchanged error
returns that output and that object with `x` and `y` exchanged. -/
theorem process_swap_state (s : PID α) (now : α) (e : Vec α) (h : s.WF ∨ s.Kp = -1) :
    ∃ out s1, s.process now e = some (out, s1) ∧
      s.swap.process now e.swap = some (out.swap, s1.swap) := by
  by_cases hKp : s.Kp = -1
  · exact ⟨_, s, process_bypass s now e hKp, process_bypass s.swap now e.swap hKp⟩
  · rcases h with hwf | hb
    · obtain ⟨e0, e1, e2, t0, t1, t2, he, ht⟩ := (WF_iff_lists s).mp hwf
      refine ⟨_, _, process_lists s now e e0 e1 e2 t0 t1 t2 he ht hKp, ?_⟩
      rw [process_lists s.swap now e.swap e0.swap e1.swap e2.swap t0 t1 t2
        (by simp [PID.swap, he]) ht hKp]
      simp [PID.swap, Vec.swap]
    · exact absurd hb hKp

/-- C19 on the sample object, for the error `{1, 2}` at clock reading `120`. -/
theorem process_swap_state_witness :
    (sample.WF ∨ sample.Kp = -1) ∧
    ∃ out s1, sample.process 120 ⟨1, 2⟩ = some (out, s1) ∧
      sample.swap.process 120 (Vec.swap ⟨1, 2⟩) = some (out.swap, s1.swap) :=
  ⟨Or.inl ⟨rfl, rfl⟩, process_swap_state sample 120 ⟨1, 2⟩ (Or.inl ⟨rfl, rfl⟩)⟩

end PIDController
